import Mathlib

/-!
Shallow embedding of `pkg/endpoints/handlers/fieldmanager/internal/gvkparser.go`.

The file models the four pieces of the gvk-parser core:
  * the extension extractor `parseGroupVersionKind` (lines 73-118 of the source),
  * the schema patcher `makeRawExtensionUntyped` (lines 123-135),
  * the builder `newGVKParser` (lines 47-70), and
  * the lookup `gvkParser.Type` (lines 39-45).

External collaborators (`proto.Models`, `schemaconv.ToSchema`,
`typed.Parser`) are modelled as narrow interfaces, exactly as the code
uses them: a catalog exposes `ListModels`/`LookupModel`, the converter is a
function parameter that may fail, and a parser handle is the pair of the
bound schema and a type name.
-/

namespace GVKParser

/-- `schema.GroupVersionKind`: the three-part resource identity. -/
structure GroupVersionKind where
  group : String
  version : String
  kind : String
deriving DecidableEq, Repr

/-- A dynamically decoded extension value (`interface \x7b\x7d` in Go): strings,
sequences, mappings with interface keys (`map[interface\x7b\x7d]interface\x7b\x7d`),
mappings with string keys (`map[string]interface\x7b\x7d`), or anything else. -/
inductive Value where
  | str (s : String)
  | seq (l : List Value)
  | imap (l : List (Value × Value))
  | smap (l : List (String × Value))
  | other
deriving Inhabited

/-- Go type assertion `.(string)` on an `interface \x7b\x7d` value. -/
def Value.asString : Value → Option String
  | .str s => some s
  | _ => none

/-- Lookup of a string key in a `map[interface\x7b\x7d]interface\x7b\x7d`: the stored key
matches iff it is a string equal to the queried key. -/
def imapLookup : List (Value × Value) → String → Option Value
  | [], _ => none
  | (Value.str k, v) :: rest, key => if k = key then some v else imapLookup rest key
  | _ :: rest, key => imapLookup rest key

/-- Lookup in a `map[string]interface\x7b\x7d` represented as an association list. -/
def lookupStr : List (String × Value) → String → Option Value
  | [], _ => none
  | (k, v) :: rest, key => if k = key then some v else lookupStr rest key

/-- `proto.Schema` as the extractor uses it: only `GetExtensions()` is read. -/
structure ProtoSchema where
  extensions : List (String × Value)

/-- `proto.Models`: the external model catalog interface. -/
structure Models where
  listModels : List String
  lookupModel : String → Option ProtoSchema

/-- The well-known extension key (source line 32). -/
def groupVersionKindExtensionKey : String := "x-kubernetes-group-version-kind"

/-- Go `gvkMap["group"].(string)`: look the key up, then type-assert to string;
a missing key yields a nil interface value, whose assertion fails. -/
def fieldStr (m : List (Value × Value)) (key : String) : Option String :=
  match imapLookup m key with
  | some v => v.asString
  | none => none

/-- The body of the extractor loop (source lines 90-115): decode one element of
the GVK extension list, or skip it. -/
def decodeGVKElem (v : Value) : Option GroupVersionKind :=
  match v with
  | Value.imap m =>
    match fieldStr m "group" with
    | none => none
    | some group =>
      match fieldStr m "version" with
      | none => none
      | some version =>
        match fieldStr m "kind" with
        | none => none
        | some kind => some ⟨group, version, kind⟩
  | _ => none

/-- `parseGroupVersionKind` (source lines 73-118). -/
def parseGroupVersionKind (s : ProtoSchema) : List GroupVersionKind :=
  match lookupStr s.extensions groupVersionKindExtensionKey with
  | none => []
  | some gvkExtension =>
    match gvkExtension with
    | Value.seq gvkList => gvkList.filterMap decodeGVKElem
    | _ => []

/-- `smdschema.Untyped` (no fields relevant to this core). -/
structure Untyped where
deriving DecidableEq, Repr

/-- `smdschema.Atom`: the shape of a type, a record of optional variants. The
internals of the non-untyped variants are opaque to this core; the scalar
variant carries its Go string payload. -/
structure Atom where
  scalar : Option String := none
  list : Option Unit := none
  map : Option Unit := none
  untyped : Option Untyped := none
deriving DecidableEq, Repr

/-- The atomic/untyped marker `Atom\x7bUntyped: &Untyped\x7b\x7d\x7d` (source lines 128-130). -/
def untypedAtom : Atom := { untyped := some ⟨⟩ }

/-- `smdschema.TypeDef`: a named type entry. -/
structure TypeDef where
  name : String
  atom : Atom
deriving DecidableEq, Repr

/-- `smdschema.Schema`: an ordered list of named type entries. -/
structure Schema where
  Types : List TypeDef
deriving DecidableEq, Repr

/-- The fixed raw-extension type name (source line 127). -/
def rawExtensionName : String := "io.k8s.apimachinery.pkg.runtime.RawExtension"

/-- `makeRawExtensionUntyped` (source lines 123-135): rebuild the type list,
replacing the Atom of any entry named `rawExtensionName`. -/
def makeRawExtensionUntyped (s : Schema) : Schema :=
  { Types := s.Types.foldl (fun acc t =>
      let t2 := if t.name = rawExtensionName then { t with atom := untypedAtom } else t
      acc ++ [t2]) [] }

/-- `typed.ParseableType` handle: the external library's handle is determined
by the schema the parser is bound to and the requested type name. -/
structure ParseableType where
  schema : Schema
  name : String
deriving DecidableEq, Repr

/-- `typed.Parser`: the parsing capability bound to a schema. -/
structure TypedParser where
  schema : Schema
deriving DecidableEq, Repr

/-- `typed.Parser.Type(name)`: ask the bound parser for a named type. -/
def TypedParser.typeFor (p : TypedParser) (name : String) : ParseableType :=
  ⟨p.schema, name⟩

/-- Go map insert with overwrite semantics, on an association list. -/
def mapInsert (l : List (GroupVersionKind × String)) (k : GroupVersionKind) (v : String) :
    List (GroupVersionKind × String) :=
  match l with
  | [] => [(k, v)]
  | (k', v') :: rest => if k' = k then (k, v) :: rest else (k', v') :: mapInsert rest k v

/-- Go map lookup on the association list. -/
def mapGet (l : List (GroupVersionKind × String)) (k : GroupVersionKind) : Option String :=
  match l with
  | [] => none
  | (k', v') :: rest => if k' = k then some v' else mapGet rest k

/-- `gvkParser`: the immutable registry of GVK index plus bound parser. -/
structure GvkParser where
  gvks : List (GroupVersionKind × String)
  parser : TypedParser
deriving DecidableEq, Repr

/-- `gvkParser.Type` (source lines 39-45): index lookup, nil on absence. -/
def GvkParser.typeOf (p : GvkParser) (gvk : GroupVersionKind) : Option ParseableType :=
  match mapGet p.gvks gvk with
  | none => none
  | some typeName => some (p.parser.typeFor typeName)

/-- The inner loop of the builder (source lines 63-67): record each extracted
GVK with non-empty kind under the model's name. -/
def addGVKs (gvks : List (GroupVersionKind × String)) (modelName : String)
    (gvkList : List GroupVersionKind) : List (GroupVersionKind × String) :=
  gvkList.foldl (fun acc gvk =>
    if 0 < gvk.kind.length then mapInsert acc gvk modelName else acc) gvks

/-- The outcome of construction: a parser, a returned error, or a panic. -/
inductive BuildResult where
  | ok (p : GvkParser)
  | err (msg : String)
  | panicked (msg : String)
deriving DecidableEq, Repr

/-- The builder's model loop (source lines 57-68): resolve each enumerated
name, panic on an unresolvable one, and populate the index. -/
def buildLoop (cat : Models) : List String → List (GroupVersionKind × String) →
    Except String (List (GroupVersionKind × String))
  | [], acc => .ok acc
  | modelName :: rest, acc =>
    match cat.lookupModel modelName with
    | none => .error "ListModels returns a model that can't be looked-up."
    | some model => buildLoop cat rest (addGVKs acc modelName (parseGroupVersionKind model))

/-- `newGVKParser` (source lines 47-70), parameterised by the external
converter `schemaconv.ToSchema`. -/
def newGVKParser (toSchema : Models → Except String Schema) (cat : Models) : BuildResult :=
  match toSchema cat with
  | .error e => .err ("failed to convert models to schema: " ++ e)
  | .ok typeSchema =>
    let patched := makeRawExtensionUntyped typeSchema
    match buildLoop cat cat.listModels [] with
    | .error msg => .panicked msg
    | .ok gvks => .ok ⟨gvks, ⟨patched⟩⟩

/-- A model in catalog position `modelName` declares `gvk` when its extracted
GVK list contains `gvk` with a non-empty kind: exactly the condition under
which the builder records an index entry for it. -/
def declaresGVK (cat : Models) (modelName : String) (gvk : GroupVersionKind) : Bool :=
  match cat.lookupModel modelName with
  | some model => decide (gvk ∈ parseGroupVersionKind model) && decide (gvk.kind ≠ "")
  | none => false

/-! ### Concrete example values (used by witnesses) -/

/-- A well-formed GVK extension element for apps/v1 Deployment. -/
def deploymentGVKElem : Value :=
  Value.imap [(Value.str "group", Value.str "apps"), (Value.str "version", Value.str "v1"),
    (Value.str "kind", Value.str "Deployment")]

/-- An extension map carrying just the Deployment GVK element. -/
def deploymentExt : List (String × Value) :=
  [(groupVersionKindExtensionKey, Value.seq [deploymentGVKElem])]

def deploymentName : String := "io.k8s.api.apps.v1.Deployment"

/-- A one-model catalog declaring apps/v1 Deployment. -/
def cat1 : Models :=
  { listModels := [deploymentName],
    lookupModel := fun n => if n = deploymentName then some ⟨deploymentExt⟩ else none }

/-- A small converted type-schema containing the raw-extension entry. -/
def schema1 : Schema :=
  ⟨[⟨deploymentName, { map := some () }⟩, ⟨rawExtensionName, { map := some () }⟩]⟩

/-- A converter that always succeeds with `schema1`. -/
def toSchema1 : Models → Except String Schema := fun _ => .ok schema1

/-- The parser `newGVKParser toSchema1 cat1` produces. -/
def p1 : GvkParser :=
  ⟨[(⟨"apps", "v1", "Deployment"⟩, deploymentName)], ⟨makeRawExtensionUntyped schema1⟩⟩

/-- A converter that always fails. -/
def toSchemaFail : Models → Except String Schema := fun _ => .error "conversion failed"

def nameA : String := "io.k8s.api.apps.v1beta1.Deployment"

/-- A two-model catalog in which both models declare the same GVK. -/
def cat2 : Models :=
  { listModels := [nameA, deploymentName],
    lookupModel := fun n =>
      if n = nameA then some ⟨deploymentExt⟩
      else if n = deploymentName then some ⟨deploymentExt⟩ else none }

/-- A catalog whose enumeration lists a name its lookup cannot resolve. -/
def catBad : Models := { listModels := ["ghost"], lookupModel := fun _ => none }

/-- A GVK extension element whose kind is the empty string. -/
def emptyKindElem : Value :=
  Value.imap [(Value.str "group", Value.str "apps"), (Value.str "version", Value.str "v1"),
    (Value.str "kind", Value.str "")]

/-- A GVK extension element missing the kind field. -/
def missingKindElem : Value :=
  Value.imap [(Value.str "group", Value.str "apps"), (Value.str "version", Value.str "v1")]

/-- A mix of malformed and well-formed GVK extension elements. -/
def mixedElems : List Value :=
  [missingKindElem, deploymentGVKElem, emptyKindElem, Value.str "bogus"]

/-- An extension map whose GVK list is `mixedElems`. -/
def extMixed : List (String × Value) := [(groupVersionKindExtensionKey, Value.seq mixedElems)]

/-- A string-keyed mapping with well-formed group/version/kind fields. -/
def smapDeployment : List (String × Value) :=
  [("group", Value.str "apps"), ("version", Value.str "v1"), ("kind", Value.str "Deployment")]

/-- A schema with no entry named `rawExtensionName`. -/
def schemaNoRaw : Schema := ⟨[⟨deploymentName, { map := some () }⟩]⟩

/-! ### Helper lemmas -/

theorem mapGet_insert_self (l : List (GroupVersionKind × String)) (k : GroupVersionKind)
    (v : String) : mapGet (mapInsert l k v) k = some v := by
  induction l with
  | nil => simp [mapInsert, mapGet]
  | cons hd tl ih =>
    obtain ⟨k', v'⟩ := hd
    by_cases h : k' = k
    · simp [mapInsert, mapGet, h]
    · simp [mapInsert, mapGet, h, ih]

theorem mapGet_insert_ne (l : List (GroupVersionKind × String)) (k k' : GroupVersionKind)
    (v : String) (h : k ≠ k') : mapGet (mapInsert l k v) k' = mapGet l k' := by
  induction l with
  | nil => simp [mapInsert, mapGet, h]
  | cons hd tl ih =>
    obtain ⟨k0, v0⟩ := hd
    by_cases h0 : k0 = k
    · subst h0
      simp [mapInsert, mapGet, h]
    · simp [mapInsert, mapGet, h0, ih]

theorem addGVKs_cons (acc : List (GroupVersionKind × String)) (modelName : String)
    (g : GroupVersionKind) (rest : List GroupVersionKind) :
    addGVKs acc modelName (g :: rest) =
      addGVKs (if 0 < g.kind.length then mapInsert acc g modelName else acc) modelName rest := rfl

theorem kind_length_pos_iff (s : String) : 0 < s.length ↔ s ≠ "" := by
  obtain ⟨data⟩ := s
  constructor
  · intro h heq
    rw [heq] at h
    simp at h
  · intro h
    rcases data with _ | ⟨c, cs⟩
    · exact absurd rfl h
    · simp [String.length]

theorem mapGet_addGVKs_not_mem (L : List GroupVersionKind)
    (acc : List (GroupVersionKind × String)) (modelName : String) (gvk : GroupVersionKind)
    (h : gvk ∉ L) : mapGet (addGVKs acc modelName L) gvk = mapGet acc gvk := by
  induction L generalizing acc with
  | nil => rfl
  | cons g rest ih =>
    rw [addGVKs_cons]
    have hne : g ≠ gvk := fun he => h (he ▸ List.mem_cons_self g rest)
    have hrest : gvk ∉ rest := fun hm => h (List.mem_cons_of_mem g hm)
    rw [ih _ hrest]
    by_cases hk : 0 < g.kind.length
    · simp [hk, mapGet_insert_ne acc g gvk modelName hne]
    · simp [hk]

theorem mapGet_addGVKs_empty_kind (L : List GroupVersionKind)
    (acc : List (GroupVersionKind × String)) (modelName : String) (gvk : GroupVersionKind)
    (h : gvk.kind = "") : mapGet (addGVKs acc modelName L) gvk = mapGet acc gvk := by
  induction L generalizing acc with
  | nil => rfl
  | cons g rest ih =>
    rw [addGVKs_cons]
    by_cases hk : 0 < g.kind.length
    · have hne : g ≠ gvk := by
        intro he
        rw [he, h] at hk
        simp at hk
      rw [ih _]
      simp [hk, mapGet_insert_ne acc g gvk modelName hne]
    · rw [ih _]
      simp [hk]

theorem mapGet_addGVKs_mem (L : List GroupVersionKind)
    (acc : List (GroupVersionKind × String)) (modelName : String) (gvk : GroupVersionKind)
    (hmem : gvk ∈ L) (hk : gvk.kind ≠ "") :
    mapGet (addGVKs acc modelName L) gvk = some modelName := by
  induction L generalizing acc with
  | nil => cases hmem
  | cons g rest ih =>
    rw [addGVKs_cons]
    by_cases hrest : gvk ∈ rest
    · exact ih _ hrest
    · have hg : g = gvk := by
        rcases List.mem_cons.mp hmem with h | h
        · exact h.symm
        · exact absurd h hrest
      subst hg
      have hpos : 0 < g.kind.length := (kind_length_pos_iff g.kind).mpr hk
      rw [mapGet_addGVKs_not_mem rest _ modelName g hrest]
      simp [hpos, mapGet_insert_self acc g modelName]

theorem mapGet_addGVKs (acc : List (GroupVersionKind × String)) (modelName : String)
    (L : List GroupVersionKind) (gvk : GroupVersionKind) :
    mapGet (addGVKs acc modelName L) gvk =
      if gvk ∈ L ∧ gvk.kind ≠ "" then some modelName else mapGet acc gvk := by
  by_cases hmem : gvk ∈ L
  · by_cases hk : gvk.kind = ""
    · rw [mapGet_addGVKs_empty_kind L acc modelName gvk hk]
      simp [hk]
    · rw [mapGet_addGVKs_mem L acc modelName gvk hmem hk]
      simp [hmem, hk]
  · rw [mapGet_addGVKs_not_mem L acc modelName gvk hmem]
    simp [hmem]

theorem find_append {α : Type} (p : α → Bool) (l₁ l₂ : List α) :
    (l₁ ++ l₂).find? p =
      match l₁.find? p with
      | some x => some x
      | none => l₂.find? p := by
  induction l₁ with
  | nil => simp
  | cons a t ih =>
    by_cases h : p a
    · simp [List.find?, h]
    · simp only [List.cons_append, List.find?, Bool.of_not_eq_true h]
      exact ih

theorem buildLoop_ok_get (cat : Models) (names : List String)
    (acc final : List (GroupVersionKind × String))
    (h : buildLoop cat names acc = Except.ok final) (gvk : GroupVersionKind) :
    mapGet final gvk =
      match names.reverse.find? (fun n => declaresGVK cat n gvk) with
      | some n => some n
      | none => mapGet acc gvk := by
  induction names generalizing acc with
  | nil =>
    simp [buildLoop] at h
    subst h
    rfl
  | cons m rest ih =>
    rw [List.reverse_cons, find_append]
    cases hlk : cat.lookupModel m with
    | none => rw [buildLoop, hlk] at h; cases h
    | some model =>
      rw [buildLoop, hlk] at h
      have := ih _ h
      rw [this]
      cases hf : rest.reverse.find? (fun n => declaresGVK cat n gvk) with
      | some n => rfl
      | none =>
        rw [mapGet_addGVKs]
        by_cases hd : declaresGVK cat m gvk
        · have hcond : gvk ∈ parseGroupVersionKind model ∧ gvk.kind ≠ "" := by
            rw [declaresGVK, hlk] at hd
            simpa using hd
          simp [List.find?, hd, hcond]
        · have hcond : ¬(gvk ∈ parseGroupVersionKind model ∧ gvk.kind ≠ "") := by
            rw [declaresGVK, hlk] at hd
            simpa using hd
          simp [List.find?, Bool.of_not_eq_true hd, hcond]

theorem buildLoop_ok_of_resolvable (cat : Models) (names : List String)
    (acc : List (GroupVersionKind × String))
    (h : ∀ n ∈ names, cat.lookupModel n ≠ none) :
    ∃ final, buildLoop cat names acc = Except.ok final := by
  induction names generalizing acc with
  | nil => exact ⟨acc, rfl⟩
  | cons m rest ih =>
    cases hlk : cat.lookupModel m with
    | none => exact absurd hlk (h m (List.mem_cons_self m rest))
    | some model =>
      obtain ⟨final, hf⟩ := ih (addGVKs acc m (parseGroupVersionKind model))
        (fun n hn => h n (List.mem_cons_of_mem m hn))
      exact ⟨final, by rw [buildLoop, hlk]; exact hf⟩

theorem buildLoop_error_of_unresolvable (cat : Models) (names : List String)
    (acc : List (GroupVersionKind × String))
    (h : ∃ n ∈ names, cat.lookupModel n = none) :
    buildLoop cat names acc =
      Except.error "ListModels returns a model that can't be looked-up." := by
  induction names generalizing acc with
  | nil => obtain ⟨n, hn, _⟩ := h; cases hn
  | cons m rest ih =>
    cases hlk : cat.lookupModel m with
    | none => rw [buildLoop, hlk]
    | some model =>
      obtain ⟨n, hn, hlkn⟩ := h
      rcases List.mem_cons.mp hn with rfl | hn'
      · rw [hlk] at hlkn; cases hlkn
      · rw [buildLoop, hlk]
        exact ih _ ⟨n, hn', hlkn⟩

theorem newGVKParser_ok_parts (toSchema : Models → Except String Schema) (cat : Models)
    (p : GvkParser) (hp : newGVKParser toSchema cat = BuildResult.ok p) :
    buildLoop cat cat.listModels [] = Except.ok p.gvks ∧
      ∃ ts, toSchema cat = Except.ok ts ∧ p.parser = ⟨makeRawExtensionUntyped ts⟩ := by
  rw [newGVKParser] at hp
  cases hts : toSchema cat with
  | error e => rw [hts] at hp; cases hp
  | ok ts =>
    rw [hts] at hp
    simp only at hp
    cases hbl : buildLoop cat cat.listModels [] with
    | error msg => rw [hbl] at hp; cases hp
    | ok gvks =>
      rw [hbl] at hp
      cases hp
      exact ⟨rfl, ts, rfl, rfl⟩

theorem patch_foldl_eq_map (ts acc : List TypeDef) :
    ts.foldl (fun acc t =>
        let t2 := if t.name = rawExtensionName then { t with atom := untypedAtom } else t
        acc ++ [t2]) acc =
      acc ++ ts.map
        (fun t => if t.name = rawExtensionName then { t with atom := untypedAtom } else t) := by
  induction ts generalizing acc with
  | nil => simp
  | cons t rest ih => simp [List.foldl_cons, ih]

theorem makeRawExtensionUntyped_eq_map (s : Schema) :
    makeRawExtensionUntyped s =
      ⟨s.Types.map
        (fun t => if t.name = rawExtensionName then { t with atom := untypedAtom } else t)⟩ := by
  rw [makeRawExtensionUntyped]
  rw [patch_foldl_eq_map]
  rfl

/-! ### Claim theorems -/

/-- C1: for a constructed parser, a GVK absent from the index makes `Type`
return absent (nil), not an error; a GVK present with model name `n` makes
`Type` return exactly the parseable type obtained by asking the parser bound
to the patched type-schema for `n` directly. -/
theorem gvkParser_typeOf_spec (toSchema : Models → Except String Schema) (cat : Models)
    (ts : Schema) (p : GvkParser)
    (hts : toSchema cat = Except.ok ts)
    (hp : newGVKParser toSchema cat = BuildResult.ok p) :
    (∀ gvk, mapGet p.gvks gvk = none → p.typeOf gvk = none) ∧
    (∀ gvk n, mapGet p.gvks gvk = some n →
      p.typeOf gvk = some (TypedParser.typeFor ⟨makeRawExtensionUntyped ts⟩ n)) := by
  obtain ⟨-, ts', hts', hparser⟩ := newGVKParser_ok_parts toSchema cat p hp
  rw [hts] at hts'
  injection hts' with h
  subst h
  constructor
  · intro gvk hg
    simp [GvkParser.typeOf, hg]
  · intro gvk n hg
    simp [GvkParser.typeOf, hg, hparser]

theorem gvkParser_typeOf_spec_witness :
    toSchema1 cat1 = Except.ok schema1 ∧
    newGVKParser toSchema1 cat1 = BuildResult.ok p1 ∧
    mapGet p1.gvks ⟨"apps", "v1", "Deployment"⟩ = some deploymentName ∧
    p1.typeOf ⟨"apps", "v1", "Deployment"⟩ =
      some (TypedParser.typeFor ⟨makeRawExtensionUntyped schema1⟩ deploymentName) :=
  ⟨rfl, by decide, by decide,
    (gvkParser_typeOf_spec toSchema1 cat1 schema1 p1 rfl (by decide)).2
      ⟨"apps", "v1", "Deployment"⟩ deploymentName (by decide)⟩

/-- C2: construction fails exactly when the external converter fails, with the
wrapped conversion error message, and then no parser is produced. -/
theorem newGVKParser_conversion_error (toSchema : Models → Except String Schema) (cat : Models) :
    (∀ e, toSchema cat = Except.error e →
      newGVKParser toSchema cat =
        BuildResult.err ("failed to convert models to schema: " ++ e)) ∧
    (∀ msg, newGVKParser toSchema cat = BuildResult.err msg →
      ∃ e, toSchema cat = Except.error e ∧
        msg = "failed to convert models to schema: " ++ e) := by
  constructor
  · intro e he
    rw [newGVKParser, he]
  · intro msg hmsg
    cases hts : toSchema cat with
    | error e =>
      rw [newGVKParser, hts] at hmsg
      injection hmsg with h
      exact ⟨e, rfl, h.symm⟩
    | ok ts =>
      rw [newGVKParser, hts] at hmsg
      simp only at hmsg
      cases hbl : buildLoop cat cat.listModels [] with
      | error m => rw [hbl] at hmsg; cases hmsg
      | ok g => rw [hbl] at hmsg; cases hmsg

theorem newGVKParser_conversion_error_witness :
    toSchemaFail cat1 = Except.error "conversion failed" ∧
    newGVKParser toSchemaFail cat1 =
      BuildResult.err "failed to convert models to schema: conversion failed" :=
  ⟨rfl, (newGVKParser_conversion_error toSchemaFail cat1).1 "conversion failed" rfl⟩

/-- C3: the patched schema has the same number of entries as the input, in the
same order; at each position the name is unchanged, an entry not named
`rawExtensionName` is unchanged by value, and an entry named
`rawExtensionName` has its Atom replaced by the atomic/untyped marker. -/
theorem makeRawExtensionUntyped_pointwise (s : Schema) :
    (makeRawExtensionUntyped s).Types.length = s.Types.length ∧
    ∀ (i : Nat) (t t2 : TypeDef), s.Types[i]? = some t →
      (makeRawExtensionUntyped s).Types[i]? = some t2 →
      t2.name = t.name ∧ (t.name ≠ rawExtensionName → t2 = t) ∧
      (t.name = rawExtensionName → t2.atom = untypedAtom) := by
  rw [makeRawExtensionUntyped_eq_map]
  constructor
  · simp
  · intro i t t2 ht ht2
    simp only [List.getElem?_map, ht, Option.map_some] at ht2
    injection ht2 with h
    subst h
    by_cases hn : t.name = rawExtensionName
    · simp [hn, untypedAtom]
    · simp [hn]

theorem makeRawExtensionUntyped_pointwise_witness :
    schema1.Types[1]? = some ⟨rawExtensionName, { map := some () }⟩ ∧
    (makeRawExtensionUntyped schema1).Types[1]? = some ⟨rawExtensionName, untypedAtom⟩ ∧
    (⟨rawExtensionName, untypedAtom⟩ : TypeDef).atom = untypedAtom :=
  ⟨rfl, by decide,
    ((makeRawExtensionUntyped_pointwise schema1).2 1 ⟨rawExtensionName, { map := some () }⟩
      ⟨rawExtensionName, untypedAtom⟩ rfl (by decide)).2.2 rfl⟩

/-- C4: when the GVK extension value is a sequence, the extractor returns
exactly the per-element decodings in sequence order: a non-interface-keyed
mapping contributes nothing, a mapping with a missing or non-string group,
version or kind field contributes nothing, and a well-formed mapping
contributes exactly its (group, version, kind) triple. -/
theorem parseGroupVersionKind_elems (ext : List (String × Value)) (l : List Value)
    (h : lookupStr ext groupVersionKindExtensionKey = some (Value.seq l)) :
    parseGroupVersionKind ⟨ext⟩ = l.filterMap decodeGVKElem ∧
    (∀ v, (∀ m, v ≠ Value.imap m) → decodeGVKElem v = none) ∧
    (∀ m, (fieldStr m "group" = none ∨ fieldStr m "version" = none ∨
        fieldStr m "kind" = none) → decodeGVKElem (Value.imap m) = none) ∧
    (∀ m g ver k, fieldStr m "group" = some g → fieldStr m "version" = some ver →
      fieldStr m "kind" = some k → decodeGVKElem (Value.imap m) = some ⟨g, ver, k⟩) := by
  refine ⟨?_, ?_, ?_, ?_⟩
  · simp [parseGroupVersionKind, h]
  · intro v hv
    cases v with
    | imap m => exact absurd rfl (hv m)
    | str s => rfl
    | seq l2 => rfl
    | smap l2 => rfl
    | other => rfl
  · intro m hm
    rcases hm with hg | hv | hk
    · simp [decodeGVKElem, hg]
    · cases hg : fieldStr m "group" with
      | none => simp [decodeGVKElem, hg]
      | some g => simp [decodeGVKElem, hg, hv]
    · cases hg : fieldStr m "group" with
      | none => simp [decodeGVKElem, hg]
      | some g =>
        cases hv : fieldStr m "version" with
        | none => simp [decodeGVKElem, hg, hv]
        | some ver => simp [decodeGVKElem, hg, hv, hk]
  · intro m g ver k hg hv hk
    simp [decodeGVKElem, hg, hv, hk]

theorem parseGroupVersionKind_elems_witness :
    lookupStr extMixed groupVersionKindExtensionKey = some (Value.seq mixedElems) ∧
    parseGroupVersionKind ⟨extMixed⟩ = mixedElems.filterMap decodeGVKElem ∧
    mixedElems.filterMap decodeGVKElem =
      [⟨"apps", "v1", "Deployment"⟩, ⟨"apps", "v1", ""⟩] :=
  ⟨rfl, (parseGroupVersionKind_elems extMixed mixedElems rfl).1, by decide⟩

/-- C5: when the GVK extension key is absent, or present with a non-sequence
value, the extractor returns the empty sequence (no error channel exists). -/
theorem parseGroupVersionKind_no_list (ext : List (String × Value)) :
    (lookupStr ext groupVersionKindExtensionKey = none → parseGroupVersionKind ⟨ext⟩ = []) ∧
    (∀ v, lookupStr ext groupVersionKindExtensionKey = some v →
      (∀ l, v ≠ Value.seq l) → parseGroupVersionKind ⟨ext⟩ = []) := by
  constructor
  · intro h
    simp [parseGroupVersionKind, h]
  · intro v h hv
    cases v with
    | seq l => exact absurd rfl (hv l)
    | str s => simp [parseGroupVersionKind, h]
    | imap l2 => simp [parseGroupVersionKind, h]
    | smap l2 => simp [parseGroupVersionKind, h]
    | other => simp [parseGroupVersionKind, h]

theorem parseGroupVersionKind_no_list_witness :
    parseGroupVersionKind ⟨[]⟩ = [] ∧
    parseGroupVersionKind ⟨[(groupVersionKindExtensionKey, Value.str "bogus")]⟩ = [] :=
  ⟨(parseGroupVersionKind_no_list []).1 rfl,
    (parseGroupVersionKind_no_list [(groupVersionKindExtensionKey, Value.str "bogus")]).2
      (Value.str "bogus") rfl (fun l hl => Value.noConfusion hl)⟩

/-- C6: the builder's per-model step maps every extracted GVK with non-empty
kind to the model's name, and creates no entry for a GVK with empty kind. -/
theorem construction_index_step (acc : List (GroupVersionKind × String)) (modelName : String)
    (model : ProtoSchema) (gvk : GroupVersionKind)
    (hmem : gvk ∈ parseGroupVersionKind model) :
    (gvk.kind ≠ "" →
      mapGet (addGVKs acc modelName (parseGroupVersionKind model)) gvk = some modelName) ∧
    (gvk.kind = "" →
      mapGet (addGVKs acc modelName (parseGroupVersionKind model)) gvk = mapGet acc gvk) := by
  constructor
  · intro hk
    exact mapGet_addGVKs_mem _ _ _ _ hmem hk
  · intro hk
    exact mapGet_addGVKs_empty_kind _ _ _ _ hk

theorem construction_index_step_witness :
    (⟨"apps", "v1", "Deployment"⟩ : GroupVersionKind) ∈ parseGroupVersionKind ⟨extMixed⟩ ∧
    (⟨"apps", "v1", ""⟩ : GroupVersionKind) ∈ parseGroupVersionKind ⟨extMixed⟩ ∧
    mapGet (addGVKs [] "m" (parseGroupVersionKind ⟨extMixed⟩)) ⟨"apps", "v1", "Deployment"⟩ =
      some "m" ∧
    mapGet (addGVKs [] "m" (parseGroupVersionKind ⟨extMixed⟩)) ⟨"apps", "v1", ""⟩ =
      mapGet [] ⟨"apps", "v1", ""⟩ :=
  ⟨by decide, by decide,
    (construction_index_step [] "m" ⟨extMixed⟩ ⟨"apps", "v1", "Deployment"⟩ (by decide)).1
      (by decide),
    (construction_index_step [] "m" ⟨extMixed⟩ ⟨"apps", "v1", ""⟩ (by decide)).2 rfl⟩

/-- C7: when two distinct enumerated models both declare the same GVK, the
constructed index binds that GVK to exactly one name, the declaring model
processed last in enumeration order, and lookup returns a type (no error). -/
theorem duplicate_gvk_last_writer_wins (toSchema : Models → Except String Schema) (cat : Models)
    (p : GvkParser) (gvk : GroupVersionKind) (n1 n2 : String)
    (hp : newGVKParser toSchema cat = BuildResult.ok p)
    (h1 : n1 ∈ cat.listModels) (h2 : n2 ∈ cat.listModels) (hne : n1 ≠ n2)
    (hd1 : declaresGVK cat n1 gvk = true) (hd2 : declaresGVK cat n2 gvk = true) :
    ∃ n, cat.listModels.reverse.find? (fun m => declaresGVK cat m gvk) = some n ∧
      mapGet p.gvks gvk = some n ∧ p.typeOf gvk ≠ none := by
  obtain ⟨hbl, -⟩ := newGVKParser_ok_parts toSchema cat p hp
  have hget := buildLoop_ok_get cat cat.listModels [] p.gvks hbl gvk
  cases hf : cat.listModels.reverse.find? (fun m => declaresGVK cat m gvk) with
  | none =>
    exact absurd hd1 (List.find?_eq_none.mp hf n1 (List.mem_reverse.mpr h1))
  | some n =>
    rw [hf] at hget
    refine ⟨n, rfl, hget, ?_⟩
    simp [GvkParser.typeOf, hget]

theorem duplicate_gvk_last_writer_wins_witness :
    newGVKParser toSchema1 cat2 = BuildResult.ok p1 ∧
    nameA ∈ cat2.listModels ∧ deploymentName ∈ cat2.listModels ∧ nameA ≠ deploymentName ∧
    declaresGVK cat2 nameA ⟨"apps", "v1", "Deployment"⟩ = true ∧
    declaresGVK cat2 deploymentName ⟨"apps", "v1", "Deployment"⟩ = true ∧
    (∃ n, cat2.listModels.reverse.find?
        (fun m => declaresGVK cat2 m ⟨"apps", "v1", "Deployment"⟩) = some n ∧
      mapGet p1.gvks ⟨"apps", "v1", "Deployment"⟩ = some n ∧
      p1.typeOf ⟨"apps", "v1", "Deployment"⟩ ≠ none) :=
  ⟨by decide, by decide, by decide, by decide, by decide, by decide,
    duplicate_gvk_last_writer_wins toSchema1 cat2 p1 ⟨"apps", "v1", "Deployment"⟩
      nameA deploymentName (by decide) (by decide) (by decide) (by decide)
      (by decide) (by decide)⟩

/-- C8: given a successful conversion, construction never panics when every
enumerated model name resolves, and panics (rather than returning an error)
when some enumerated name fails to resolve. -/
theorem catalog_resolution_fault (toSchema : Models → Except String Schema) (cat : Models)
    (ts : Schema) (hts : toSchema cat = Except.ok ts) :
    ((∀ n ∈ cat.listModels, cat.lookupModel n ≠ none) →
      ∃ p, newGVKParser toSchema cat = BuildResult.ok p) ∧
    ((∃ n ∈ cat.listModels, cat.lookupModel n = none) →
      newGVKParser toSchema cat =
        BuildResult.panicked "ListModels returns a model that can't be looked-up.") := by
  constructor
  · intro h
    obtain ⟨final, hf⟩ := buildLoop_ok_of_resolvable cat cat.listModels [] h
    exact ⟨⟨final, ⟨makeRawExtensionUntyped ts⟩⟩, by simp [newGVKParser, hts, hf]⟩
  · intro h
    simp [newGVKParser, hts, buildLoop_error_of_unresolvable cat cat.listModels [] h]

theorem catalog_resolution_fault_witness :
    toSchema1 catBad = Except.ok schema1 ∧
    (∃ n ∈ catBad.listModels, catBad.lookupModel n = none) ∧
    newGVKParser toSchema1 catBad =
      BuildResult.panicked "ListModels returns a model that can't be looked-up." :=
  ⟨rfl, ⟨"ghost", by decide, rfl⟩,
    (catalog_resolution_fault toSchema1 catBad schema1 rfl).2 ⟨"ghost", by decide, rfl⟩⟩

/-- C9: a schema containing no entry named `rawExtensionName` passes through
the patcher unmodified. -/
theorem makeRawExtensionUntyped_no_raw_id (s : Schema)
    (h : ∀ t ∈ s.Types, t.name ≠ rawExtensionName) :
    makeRawExtensionUntyped s = s := by
  obtain ⟨Ts⟩ := s
  rw [makeRawExtensionUntyped_eq_map]
  have h2 : ∀ t ∈ Ts, (if t.name = rawExtensionName
      then { t with atom := untypedAtom } else t) = t := by
    intro t ht
    simp [h t ht]
  have h3 : Ts.map (fun t => if t.name = rawExtensionName
      then { t with atom := untypedAtom } else t) = Ts := by
    induction Ts with
    | nil => rfl
    | cons t rest ih =>
      rw [List.map_cons, h2 t (List.mem_cons_self t rest),
        ih (fun u hu => h u (List.mem_cons_of_mem t hu))
          (fun u hu => h2 u (List.mem_cons_of_mem t hu))]
  rw [h3]

theorem makeRawExtensionUntyped_no_raw_id_witness :
    (∀ t ∈ schemaNoRaw.Types, t.name ≠ rawExtensionName) ∧
    makeRawExtensionUntyped schemaNoRaw = schemaNoRaw :=
  ⟨by decide, makeRawExtensionUntyped_no_raw_id schemaNoRaw (by decide)⟩

/-- C10: an extension-list element that is a string-keyed mapping is always
skipped, even when it carries well-formed group/version/kind fields; a GVK
list made only of such elements extracts to the empty sequence. -/
theorem smap_elements_skipped :
    (∀ sm : List (String × Value), decodeGVKElem (Value.smap sm) = none) ∧
    (∀ ext l, lookupStr ext groupVersionKindExtensionKey = some (Value.seq l) →
      (∀ v ∈ l, ∃ sm, v = Value.smap sm) → parseGroupVersionKind ⟨ext⟩ = []) := by
  constructor
  · intro sm
    rfl
  · intro ext l h hall
    have h1 : parseGroupVersionKind ⟨ext⟩ = l.filterMap decodeGVKElem := by
      simp [parseGroupVersionKind, h]
    rw [h1, List.filterMap_eq_nil_iff]
    intro v hv
    obtain ⟨sm, rfl⟩ := hall v hv
    rfl

theorem smap_elements_skipped_witness :
    decodeGVKElem (Value.smap smapDeployment) = none ∧
    lookupStr [(groupVersionKindExtensionKey, Value.seq [Value.smap smapDeployment])]
      groupVersionKindExtensionKey = some (Value.seq [Value.smap smapDeployment]) ∧
    parseGroupVersionKind
      ⟨[(groupVersionKindExtensionKey, Value.seq [Value.smap smapDeployment])]⟩ = [] :=
  ⟨smap_elements_skipped.1 smapDeployment, rfl,
    smap_elements_skipped.2 _ _ rfl (by
      intro v hv
      rw [List.mem_singleton] at hv
      exact ⟨smapDeployment, hv⟩)⟩

end GVKParser
